import Mathlib

/-!
# Verification development for `i18n` (worldiety/geni8n), file `api.go`

`api.go` is the public facade over the process-wide registry `allResources`.
The facade functions `Import`, `ImportValue`, `From`, `Validate` and
`TranslationPriority` are embedded from the source text.  The registry type,
`Configure`, `Match`, `SetTranslationPriority`, `validate`, the `Value`
interface and `LocaleTag` are declared in other files of the package; they are
modelled from the specification and marked as such.

Conventions of the embedding:
* the global `allResources` becomes an explicit state of type `localizations`
  that every operation receives and returns;
* a Go `map` is a list of entries, looked up by key;
* a `*Resources` pointer is the tag of the store inside the registry: a write
  through the pointer rewrites the store bearing that tag;
* a Go `error` is `Option Error`, `none` standing for `nil`;
* the order of lock operations and writes of one call is recorded as a list
  of `Event`s, in program order.
-/

namespace i18n

/-! ## Data model -/

/-- Modelled from the spec: `LocaleTag`, a normalized locale identifier with a
primary subtag (the language) and optional script and region subtags.  Two tags
are equal iff all their subtags are equal. -/
structure LocaleTag where
  language : String
  script : Option String
  region : Option String
deriving DecidableEq, Repr

/-- Modelled from the spec: the special tag "und" of the default fallback store. -/
def und : LocaleTag := ⟨"und", none, none⟩

/-- Modelled from the spec: the `Value` interface, the capability set
`ID() string`, `Locale() string`, `updateTag(LocaleTag)`.  An entry carries its
identifier, the raw locale string it was built with, the locale tag it is bound
to and its translated text. -/
structure Value where
  ID : String
  Locale : String
  tag : LocaleTag
  text : String
deriving DecidableEq, Repr

/-- Modelled from the spec: `updateTag`, the update operation that rebinds the
locale tag of an entry and leaves identifier, raw locale and text alone. -/
def Value.updateTag (value : Value) (tag : LocaleTag) : Value :=
  { value with tag := tag }

/-- Lookup `m[k]` in a Go map held as a list of entries. -/
def mapGet {κ ν : Type} [DecidableEq κ] : List (κ × ν) → κ → Option ν
  | [], _ => none
  | (k', v) :: m, k => if k' = k then some v else mapGet m k

/-- Assignment `m[k] = v` in a Go map held as a list of entries: the entry for
`k` is replaced when present and added otherwise. -/
def mapSet {κ ν : Type} [DecidableEq κ] : List (κ × ν) → κ → ν → List (κ × ν)
  | [], k, v => [(k, v)]
  | (k', v') :: m, k, v => if k' = k then (k, v) :: m else (k', v') :: mapSet m k v

/-- Modelled from the spec: `Resources`, the value store of one locale tag: the
tag it belongs to (`res.tag`) and the map from entry ID to entry
(`res.values`). -/
structure Resources where
  tag : LocaleTag
  values : List (String × Value)
deriving DecidableEq, Repr

/-- Modelled from the spec: the registry behind `allResources`: the stores
(`translations`, keyed by the tag each store carries) and the priority list. -/
structure localizations where
  translations : List Resources
  priority : List LocaleTag
deriving DecidableEq, Repr

/-- Modelled from the spec: `newLocalizations`, the registry at process start,
with no store and no priority. -/
def newLocalizations : localizations := ⟨[], []⟩

/-- Lookup `translations[tag]`. -/
def localizations.find (l : localizations) (tag : LocaleTag) : Option Resources :=
  l.translations.find? (fun res => decide (res.tag = tag))

/-- The write `res.values[id] = value` through the pointer `res` to the store
bearing `tag`. -/
def localizations.setValue (l : localizations) (tag : LocaleTag) (id : String)
    (value : Value) : localizations :=
  { l with translations := l.translations.map (fun res =>
      if res.tag = tag then { res with values := mapSet res.values id value } else res) }

/-- Modelled from the spec: one problem found by the validator: a completeness
defect naming the locale that lacks an ID, or a directive mismatch naming the
ID, the two offending locales and their directive signatures. -/
inductive Defect where
  | missing (locale : LocaleTag) (id : String)
  | mismatch (id : String) (a b : LocaleTag) (sigA sigB : List String)
deriving DecidableEq, Repr

/-- Go errors: a plain error, the result of `fmt.Errorf` with a `%w` verb, which
keeps the wrapped error, or the aggregated error of the validator. -/
inductive Error where
  | plain (msg : String)
  | wrapped (msg : String) (err : Error)
  | defects (ds : List Defect)
deriving DecidableEq, Repr

/-- Method `Error()`: the message of an error (the aggregated error of the
validator is rendered by its number of defects). -/
def Error.message : Error → String
  | .plain msg => msg
  | .wrapped msg _ => msg
  | .defects ds => "validation failed: " ++ toString ds.length ++ " defects"

/-- Function `errors.Unwrap`: the error a `%w` verb wrapped, if any. -/
def Error.Unwrap : Error → Option Error
  | .plain _ => none
  | .wrapped _ err => some err
  | .defects _ => none

/-- Call `fmt.Errorf(pre + "%w", err)` for a literal prefix `pre`. -/
def Errorf (pre : String) (err : Error) : Error :=
  .wrapped (pre ++ err.message) err

/-- Observable steps of one call, in program order. -/
inductive Event where
  | configure (locale : String)
  | updateTag (tag : LocaleTag)
  | lock (tag : LocaleTag)
  | write (tag : LocaleTag) (id : String)
  | unlock (tag : LocaleTag)
  | rlock
  | snapshot (n : Nat)
  | validate
  | runlock
deriving DecidableEq, Repr

/-! ## Registry operations -/

/-- Modelled from the spec: `Configure`, which normalizes `locale` into a tag
and returns the store for that exact tag, creating, storing and returning a new
empty store when there is none.  The normalization of locale strings is the
parameter `normalize`. -/
def Configure (normalize : String → LocaleTag) (l : localizations) (locale : String) :
    Resources × localizations :=
  let tag := normalize locale
  match l.find tag with
  | some res => (res, l)
  | none =>
    let res : Resources := ⟨tag, []⟩
    (res, { l with translations := l.translations ++ [res] })

/-- Source function `ImportValue` with its trace of steps: `Configure`, then
`value.updateTag(res.tag)`, then `res.mutex.Lock()`, then
`res.values[value.ID()] = value`, and the deferred `res.mutex.Unlock()` on
return.  `Value` is an interface, so the value written to the map is the one
`updateTag` has rebound. -/
def ImportValueRun (normalize : String → LocaleTag) (value : Value) (l : localizations) :
    localizations × List Event :=
  let (res, l1) := Configure normalize l value.Locale
  let value1 := value.updateTag res.tag
  let l2 := l1.setValue res.tag value1.ID value1
  (l2, [Event.configure value.Locale, Event.updateTag res.tag, Event.lock res.tag,
        Event.write res.tag value1.ID, Event.unlock res.tag])

/-- Source function `ImportValue`: the registry after the call. -/
def ImportValue (normalize : String → LocaleTag) (value : Value) (l : localizations) :
    localizations :=
  (ImportValueRun normalize value l).1

/-- Whether the mutex of the store `tag` is held after the steps of `trace`:
the last `lock` or `unlock` of that store decides. -/
def holds (tag : LocaleTag) (trace : List Event) : Bool :=
  trace.foldl (fun h e =>
    if e = Event.lock tag then true else if e = Event.unlock tag then false else h) false

/-- Whether the mutex of the store `tag` is held when step `i` of `trace` runs. -/
def heldAt (tag : LocaleTag) (trace : List Event) (i : Nat) : Bool :=
  holds tag (trace.take i)

/-- Whether the registry read lock is held after the steps of `trace`. -/
def rholds (trace : List Event) : Bool :=
  trace.foldl (fun h e =>
    if e = Event.rlock then true else if e = Event.runlock then false else h) false

/-- The write of a whole store through the pointer to the store bearing `tag`
(what an importer does to the store it is handed). -/
def localizations.setStore (l : localizations) (tag : LocaleTag) (store : Resources) :
    localizations :=
  { l with translations := l.translations.map (fun res =>
      if res.tag = tag then store else res) }

/-- Source function `Import`.  The `Importer` collaborator is the parameter
`importer`: handed the store and the source, it yields the store as it left it
and its error. -/
def Import {Src : Type} (normalize : String → LocaleTag)
    (importer : Resources → Src → Resources × Option Error)
    (locale : String) (src : Src) (l : localizations) : localizations × Option Error :=
  let (res, l1) := Configure normalize l locale
  let (res1, err) := importer res src
  let l2 := l1.setStore res.tag res1
  match err with
  | some e => (l2, some (Errorf "failed to parse: " e))
  | none => (l2, none)

/-- Modelled from the spec: `Match`, the matcher of section 4.2.  (1) the first
client locale with an exact tag match among the stores; (2) else the first
client locale with a language-only match; (3) else the first entry of the
priority list that has a store; (4) else the "und" store.  `none` is Go's nil
result when even "und" has no store. -/
def Match (normalize : String → LocaleTag) (l : localizations) (locales : List String) :
    Option Resources :=
  let tags := locales.map normalize
  match tags.findSome? (fun tag => l.find tag) with
  | some res => some res
  | none =>
    match tags.findSome? (fun tag =>
        l.translations.find? (fun res => decide (res.tag.language = tag.language))) with
    | some res => some res
    | none =>
      match l.priority.findSome? (fun tag => l.find tag) with
      | some res => some res
      | none => l.find und

/-- Source function `From`: `allResources.Match(locales...)`. -/
def From (normalize : String → LocaleTag) (l : localizations) (locales : List String) :
    Option Resources :=
  Match normalize l locales

/-- Modelled from the spec: `SetTranslationPriority`, which replaces the
priority list and removes every store whose tag is not in the new list and is
not "und". -/
def SetTranslationPriority (normalize : String → LocaleTag) (l : localizations)
    (locales : List String) : localizations :=
  let tags := locales.map normalize
  { translations := l.translations.filter (fun res => decide (res.tag ∈ tags ∨ res.tag = und)),
    priority := tags }

/-- Source function `TranslationPriority`:
`allResources.SetTranslationPriority(locales)`. -/
def TranslationPriority (normalize : String → LocaleTag) (l : localizations)
    (locales : List String) : localizations :=
  SetTranslationPriority normalize l locales

/-! ## Validation -/

/-- The entry IDs present in at least one of the stores, each once. -/
def allIDs (stores : List Resources) : List String :=
  (stores.map (fun res => res.values.map Prod.fst)).flatten.dedup

/-- Completeness defects of one ID: one for every store that lacks it. -/
def missingIn (id : String) (stores : List Resources) : List Defect :=
  stores.filterMap (fun res =>
    if (mapGet res.values id).isSome then none else some (Defect.missing res.tag id))

/-- Directive defects of one ID between the store `a` and each of `stores`. -/
def mismatchWith (directives : String → List String) (id : String) (a : Resources)
    (stores : List Resources) : List Defect :=
  stores.filterMap (fun b =>
    match mapGet a.values id, mapGet b.values id with
    | some va, some vb =>
      if directives va.text = directives vb.text then none
      else some (Defect.mismatch id a.tag b.tag (directives va.text) (directives vb.text))
    | _, _ => none)

/-- Directive defects of one ID: one for every pair of stores whose texts for
the ID differ in their directive signatures. -/
def mismatches (directives : String → List String) (id : String) :
    List Resources → List Defect
  | [] => []
  | a :: rest => mismatchWith directives id a rest ++ mismatches directives id rest

/-- Modelled from the spec: `validate`, the validator of section 4.4.  For every
entry ID present in at least one store it reports a completeness defect for
each store that lacks the ID and a directive defect for each pair of stores
whose directive signatures for the ID differ; all defects are collected; an
empty defect list means no error.  Validation never mutates any store: the
stores it leaves behind, the first component, are the stores it was handed.
The extraction of the ordered directives of a text is the parameter
`directives`. -/
def validate (directives : String → List String) (stores : List Resources) :
    List Resources × Option Error :=
  (stores,
    match ((allIDs stores).map (fun id =>
        missingIn id stores ++ mismatches directives id stores)).flatten with
    | [] => none
    | d :: ds => some (Error.defects (d :: ds)))

/-- What a callee handed the pointers `tmp` leaves in the registry: the store
behind every pointer of `tmp` becomes the store the callee left there. -/
def writeBack (l : localizations) (tmp stores : List Resources) : localizations :=
  (tmp.zip stores).foldl (fun l p => l.setStore p.1.tag p.2) l

/-- Source function `Validate` with its trace of steps.  `range` is the order in
which Go's `range` visits the entries of the map, which the language leaves
open; the loop appends every visited store to `tmp`.  The collaborator
`validate` is a parameter: it is handed `tmp`, a slice of pointers to the live
stores, and yields the stores as it left them and its error; the registry
after the call holds what it left behind those pointers. -/
def ValidateRun (validate : List Resources → List Resources × Option Error)
    (range : List Resources → List Resources) (l : localizations) :
    (localizations × Option Error) × List Event :=
  let tmp := (range l.translations).foldl (fun tmp res => tmp ++ [res]) []
  let (stores, err) := validate tmp
  let l1 := writeBack l tmp stores
  ((l1, err),
   [Event.rlock, Event.snapshot tmp.length, Event.validate, Event.runlock])

/-- Source function `Validate`: the registry after the call and the error. -/
def Validate (validate : List Resources → List Resources × Option Error)
    (range : List Resources → List Resources) (l : localizations) :
    localizations × Option Error :=
  (ValidateRun validate range l).1

/-- Every entry of every store carries the tag of the store that owns it. -/
def TagInv (l : localizations) : Prop :=
  ∀ res ∈ l.translations, ∀ e ∈ res.values, e.2.tag = res.tag

/-- The texts of two stores for `id`, where both have one, agree in their
directive signatures. -/
def compatible (directives : String → List String) (id : String) (a b : Resources) : Prop :=
  ∀ va vb, mapGet a.values id = some va → mapGet b.values id = some vb →
    directives va.text = directives vb.text

/-! ## Sample data -/

/-- A normalization for the examples: a table for the regional spellings used
there; every other string is taken as a bare language. -/
def sampleNormalize (locale : String) : LocaleTag :=
  if locale = "en-US" ∨ locale = "en_US" then ⟨"en", none, some "US"⟩
  else if locale = "en-GB" ∨ locale = "en_GB" then ⟨"en", none, some "GB"⟩
  else if locale = "en-CA" then ⟨"en", none, some "CA"⟩
  else ⟨locale, none, none⟩

/-- A directive extraction for the examples: the characters that follow a
percent sign. -/
def sampleDirectives (text : String) : List String :=
  let rec go : List Char → List String
    | [] => []
    | [_] => []
    | c :: d :: rest => if c = '%' then String.mk [c, d] :: go rest else go (d :: rest)
  go text.data


/-! ## Lemmas on maps and on the registry -/

theorem mapGet_mapSet_same {κ ν : Type} [DecidableEq κ] (m : List (κ × ν)) (k : κ) (v : ν) :
    mapGet (mapSet m k v) k = some v := by
  induction m with
  | nil => simp [mapSet, mapGet]
  | cons e m ih =>
    obtain ⟨k', v'⟩ := e
    by_cases h : k' = k
    · simp [mapSet, mapGet, h]
    · simp [mapSet, mapGet, h, ih]

theorem mapGet_mapSet_other {κ ν : Type} [DecidableEq κ] (m : List (κ × ν)) (k j : κ) (v : ν)
    (hj : j ≠ k) : mapGet (mapSet m k v) j = mapGet m j := by
  induction m with
  | nil => simp [mapSet, mapGet, Ne.symm hj]
  | cons e m ih =>
    obtain ⟨k', v'⟩ := e
    by_cases h : k' = k
    · subst h
      simp [mapSet, mapGet, Ne.symm hj]
    · by_cases h2 : k' = j
      · subst h2
        simp [mapSet, mapGet, h]
      · simp [mapSet, mapGet, h, h2, ih]

theorem mem_mapSet {κ ν : Type} [DecidableEq κ] (m : List (κ × ν)) (k : κ) (v : ν)
    (e : κ × ν) (he : e ∈ mapSet m k v) : e = (k, v) ∨ e ∈ m := by
  induction m with
  | nil => simpa [mapSet] using he
  | cons e' m ih =>
    obtain ⟨k', v'⟩ := e'
    by_cases h : k' = k
    · simp only [mapSet, h, if_true, List.mem_cons] at he
      rcases he with he | he
      · exact Or.inl he
      · exact Or.inr (List.mem_cons_of_mem _ he)
    · simp only [mapSet, h, if_false, List.mem_cons] at he
      rcases he with he | he
      · exact Or.inr (he ▸ List.mem_cons_self _ _)
      · rcases ih he with h1 | h1
        · exact Or.inl h1
        · exact Or.inr (List.mem_cons_of_mem _ h1)

theorem find_tag (l : localizations) (tag : LocaleTag) (res : Resources)
    (h : l.find tag = some res) : res.tag = tag := by
  have := List.find?_some h
  simpa using this

theorem find_mem (l : localizations) (tag : LocaleTag) (res : Resources)
    (h : l.find tag = some res) : res ∈ l.translations :=
  List.mem_of_find?_eq_some h

theorem Configure_of_find (normalize : String → LocaleTag) (l : localizations)
    (locale : String) (res : Resources) (h : l.find (normalize locale) = some res) :
    Configure normalize l locale = (res, l) := by
  unfold Configure
  simp [h]

theorem Configure_of_not_find (normalize : String → LocaleTag) (l : localizations)
    (locale : String) (h : l.find (normalize locale) = none) :
    Configure normalize l locale =
      (⟨normalize locale, []⟩,
        { l with translations := l.translations ++ [⟨normalize locale, []⟩] }) := by
  unfold Configure
  simp [h]

theorem Configure_tag (normalize : String → LocaleTag) (l : localizations) (locale : String) :
    (Configure normalize l locale).1.tag = normalize locale := by
  cases h : l.find (normalize locale) with
  | none => rw [Configure_of_not_find normalize l locale h]
  | some res =>
    rw [Configure_of_find normalize l locale res h]
    exact find_tag l _ res h

theorem Configure_find (normalize : String → LocaleTag) (l : localizations) (locale : String) :
    (Configure normalize l locale).2.find (normalize locale) =
      some (Configure normalize l locale).1 := by
  cases h : l.find (normalize locale) with
  | none =>
    rw [Configure_of_not_find normalize l locale h]
    simp only [localizations.find] at h ⊢
    simp [List.find?_append, h]
  | some res =>
    rw [Configure_of_find normalize l locale res h]
    exact h

theorem Configure_priority (normalize : String → LocaleTag) (l : localizations)
    (locale : String) : (Configure normalize l locale).2.priority = l.priority := by
  cases h : l.find (normalize locale) with
  | none => rw [Configure_of_not_find normalize l locale h]
  | some res => rw [Configure_of_find normalize l locale res h]

theorem find?_map_keep (f : Resources → Resources) (hf : ∀ res, (f res).tag = res.tag)
    (t : LocaleTag) (xs : List Resources) :
    (xs.map f).find? (fun res => decide (res.tag = t)) =
      (xs.find? (fun res => decide (res.tag = t))).map f := by
  induction xs with
  | nil => rfl
  | cons x xs ih =>
    by_cases h : x.tag = t
    · simp [List.find?_cons, hf, h]
    · simp [List.find?_cons, hf, h, ih]

theorem setValue_find (l : localizations) (tag t : LocaleTag) (id : String) (value : Value) :
    (l.setValue tag id value).find t =
      (l.find t).map (fun res =>
        if res.tag = tag then { res with values := mapSet res.values id value } else res) := by
  unfold localizations.setValue localizations.find
  apply find?_map_keep
  intro res
  by_cases h : res.tag = tag <;> simp [h]

theorem ImportValue_eq (normalize : String → LocaleTag) (value : Value) (l : localizations) :
    ImportValue normalize value l =
      (Configure normalize l value.Locale).2.setValue (normalize value.Locale) value.ID
        (value.updateTag (normalize value.Locale)) := by
  simp [ImportValue, ImportValueRun, Configure_tag, Value.updateTag]

theorem ImportValue_find (normalize : String → LocaleTag) (value : Value) (l : localizations) :
    (ImportValue normalize value l).find (normalize value.Locale) =
      some { (Configure normalize l value.Locale).1 with
        values := mapSet (Configure normalize l value.Locale).1.values value.ID
          (value.updateTag (normalize value.Locale)) } := by
  rw [ImportValue_eq, setValue_find, Configure_find]
  simp [Configure_tag, Value.updateTag]

theorem ImportValue_get (normalize : String → LocaleTag) (value : Value) (l : localizations) :
    mapGet (Configure normalize (ImportValue normalize value l) value.Locale).1.values value.ID =
      some (value.updateTag (normalize value.Locale)) := by
  rw [Configure_of_find normalize _ value.Locale _ (ImportValue_find normalize value l)]
  exact mapGet_mapSet_same _ _ _

theorem setValue_priority (l : localizations) (tag : LocaleTag) (id : String)
    (value : Value) : (l.setValue tag id value).priority = l.priority := rfl

theorem setValue_tags (l : localizations) (tag : LocaleTag) (id : String) (value : Value) :
    (l.setValue tag id value).translations.map Resources.tag =
      l.translations.map Resources.tag := by
  unfold localizations.setValue
  simp only [List.map_map]
  apply List.map_congr_left
  intro res _
  by_cases h : res.tag = tag <;> simp [h]

theorem setValue_filter (l : localizations) (tag : LocaleTag) (id : String) (value : Value) :
    (l.setValue tag id value).translations.filter (fun res => decide (res.tag ≠ tag)) =
      l.translations.filter (fun res => decide (res.tag ≠ tag)) := by
  unfold localizations.setValue
  simp only
  induction l.translations with
  | nil => rfl
  | cons x xs ih =>
    by_cases h : x.tag = tag
    · simpa [List.filter_cons, h] using ih
    · simpa [List.filter_cons, h] using ih

theorem Configure_filter (normalize : String → LocaleTag) (l : localizations)
    (locale : String) :
    (Configure normalize l locale).2.translations.filter
        (fun res => decide (res.tag ≠ normalize locale)) =
      l.translations.filter (fun res => decide (res.tag ≠ normalize locale)) := by
  cases h : l.find (normalize locale) with
  | none =>
    rw [Configure_of_not_find normalize l locale h]
    simp [List.filter_append]
  | some res => rw [Configure_of_find normalize l locale res h]

theorem Configure_find_other (normalize : String → LocaleTag) (l : localizations)
    (locale : String) (t : LocaleTag) (ht : t ≠ normalize locale) :
    (Configure normalize l locale).2.find t = l.find t := by
  cases h : l.find (normalize locale) with
  | none =>
    rw [Configure_of_not_find normalize l locale h]
    simp only [localizations.find, List.find?_append]
    cases h2 : List.find? (fun res => decide (res.tag = t)) l.translations with
    | none => simp [List.find?_cons, Ne.symm ht]
    | some r => simp
  | some res => rw [Configure_of_find normalize l locale res h]

theorem TagInv_Configure (normalize : String → LocaleTag) (l : localizations)
    (locale : String) (h : TagInv l) : TagInv (Configure normalize l locale).2 := by
  cases hf : l.find (normalize locale) with
  | none =>
    rw [Configure_of_not_find normalize l locale hf]
    intro res hres e he
    simp only [List.mem_append, List.mem_singleton] at hres
    rcases hres with hres | hres
    · exact h res hres e he
    · subst hres
      simp at he
  | some res =>
    rw [Configure_of_find normalize l locale res hf]
    exact h

theorem TagInv_setValue (l : localizations) (tag : LocaleTag) (id : String) (value : Value)
    (hv : value.tag = tag) (h : TagInv l) : TagInv (l.setValue tag id value) := by
  intro res hres e he
  unfold localizations.setValue at hres
  simp only [List.mem_map] at hres
  obtain ⟨res0, hres0, rfl⟩ := hres
  by_cases ht : res0.tag = tag
  · simp only [ht, if_true] at he ⊢
    rcases mem_mapSet _ _ _ _ he with h1 | h1
    · rw [h1]
      exact hv
    · rw [← ht]
      exact h res0 hres0 e h1
  · simp only [ht, if_false] at he ⊢
    exact h res0 hres0 e he

theorem TagInv_ImportValue (normalize : String → LocaleTag) (value : Value)
    (l : localizations) (h : TagInv l) : TagInv (ImportValue normalize value l) := by
  rw [ImportValue_eq]
  exact TagInv_setValue _ _ _ _ rfl (TagInv_Configure normalize l _ h)

theorem TagInv_foldl (normalize : String → LocaleTag) (values : List Value) :
    ∀ l : localizations, TagInv l →
      TagInv (values.foldl (fun l value => ImportValue normalize value l) l) := by
  induction values with
  | nil => intro l h; exact h
  | cons v vs ih =>
    intro l h
    exact ih _ (TagInv_ImportValue normalize v l h)

theorem findSome?_first {α β : Type} (f : α → Option β) (pre : List α) (c : α)
    (post : List α) (b : β) (hpre : ∀ x ∈ pre, f x = none) (hc : f c = some b) :
    (pre ++ c :: post).findSome? f = some b := by
  induction pre with
  | nil => simp [List.findSome?_cons, hc]
  | cons x xs ih =>
    have hx : f x = none := hpre x (List.mem_cons_self _ _)
    have hxs : ∀ y ∈ xs, f y = none := fun y hy => hpre y (List.mem_cons_of_mem _ hy)
    simp [List.findSome?_cons, hx, ih hxs]

theorem find?_filter_keep (q : Resources → Bool) (t : LocaleTag)
    (hq : ∀ res : Resources, res.tag = t → q res = true) (xs : List Resources) :
    (xs.filter q).find? (fun res => decide (res.tag = t)) =
      xs.find? (fun res => decide (res.tag = t)) := by
  induction xs with
  | nil => rfl
  | cons x xs ih =>
    by_cases h : x.tag = t
    · simp [List.filter_cons, hq x h, List.find?_cons, h]
    · cases hx : q x
      · simp [List.filter_cons, hx, List.find?_cons, h, ih]
      · simp [List.filter_cons, hx, List.find?_cons, h, ih]

theorem foldl_append_singleton {α : Type} (xs : List α) :
    ∀ acc : List α, xs.foldl (fun tmp res => tmp ++ [res]) acc = acc ++ xs := by
  induction xs with
  | nil => intro acc; simp
  | cons x xs ih => intro acc; simp [ih]

theorem Validate_result (validate : List Resources → List Resources × Option Error)
    (range : List Resources → List Resources) (l : localizations) :
    (Validate validate range l).2 = (validate (range l.translations)).2 := by
  simp [Validate, ValidateRun, foldl_append_singleton]

theorem Validate_registry (validate : List Resources → List Resources × Option Error)
    (range : List Resources → List Resources) (l : localizations) :
    (Validate validate range l).1 =
      writeBack l (range l.translations) (validate (range l.translations)).1 := by
  simp [Validate, ValidateRun, foldl_append_singleton]

theorem setStore_self (l : localizations) (res : Resources) (hres : res ∈ l.translations)
    (hnodup : (l.translations.map Resources.tag).Nodup) : l.setStore res.tag res = l := by
  unfold localizations.setStore
  have hmap : l.translations.map (fun r => if r.tag = res.tag then res else r) =
      l.translations := by
    conv_rhs => rw [← List.map_id l.translations]
    apply List.map_congr_left
    intro r hr
    by_cases h : r.tag = res.tag
    · simp only [h, if_true, id]
      exact (List.inj_on_of_nodup_map hnodup hr hres h).symm
    · simp [h]
  rw [hmap]

theorem writeBack_self (l : localizations)
    (hnodup : (l.translations.map Resources.tag).Nodup) :
    ∀ tmp : List Resources, (∀ res ∈ tmp, res ∈ l.translations) → writeBack l tmp tmp = l := by
  intro tmp
  unfold writeBack
  induction tmp with
  | nil => intro _; rfl
  | cons x xs ih =>
    intro h
    simp only [List.zip_cons_cons, List.foldl_cons]
    rw [setStore_self l x (h x (List.mem_cons_self _ _)) hnodup]
    exact ih (fun r hr => h r (List.mem_cons_of_mem _ hr))

theorem Validate_of_readonly (validate : List Resources → List Resources × Option Error)
    (range : List Resources → List Resources) (hrange : ∀ xs, (range xs).Perm xs)
    (l : localizations) (hnodup : (l.translations.map Resources.tag).Nodup)
    (hro : (validate (range l.translations)).1 = range l.translations) :
    (Validate validate range l).1 = l := by
  rw [Validate_registry, hro]
  exact writeBack_self l hnodup _ (fun res hres => (hrange _).mem_iff.mp hres)

theorem mapGet_isSome_mem {κ ν : Type} [DecidableEq κ] (m : List (κ × ν)) (k : κ)
    (h : (mapGet m k).isSome = true) : k ∈ m.map Prod.fst := by
  induction m with
  | nil => simp [mapGet] at h
  | cons e m ih =>
    obtain ⟨k', v'⟩ := e
    by_cases hk : k' = k
    · simp [hk]
    · simp only [mapGet, hk, if_false] at h
      simp only [List.map_cons, List.mem_cons]
      exact Or.inr (ih h)

theorem mem_allIDs (stores : List Resources) (res : Resources) (id : String)
    (hres : res ∈ stores) (h : (mapGet res.values id).isSome = true) : id ∈ allIDs stores := by
  unfold allIDs
  rw [List.mem_dedup, List.mem_flatten]
  exact ⟨_, List.mem_map.mpr ⟨res, hres, rfl⟩, mapGet_isSome_mem _ _ h⟩

theorem validate_none (directives : String → List String) (stores : List Resources)
    (h : (validate directives stores).2 = none) (id : String) (hid : id ∈ allIDs stores) :
    missingIn id stores = [] ∧ mismatches directives id stores = [] := by
  unfold validate at h
  simp only at h
  split at h
  · rename_i heq
    have hall := List.flatten_eq_nil_iff.mp heq
      (missingIn id stores ++ mismatches directives id stores)
      (List.mem_map.mpr ⟨id, hid, rfl⟩)
    exact List.append_eq_nil.mp hall
  · cases h

theorem missingIn_nil (id : String) (stores : List Resources)
    (h : missingIn id stores = []) :
    ∀ res ∈ stores, (mapGet res.values id).isSome = true := by
  intro res hres
  unfold missingIn at h
  rw [List.filterMap_eq_nil_iff] at h
  have := h res hres
  by_contra hc
  simp [hc] at this

theorem mismatchWith_nil (directives : String → List String) (id : String) (a : Resources)
    (stores : List Resources) (h : mismatchWith directives id a stores = []) :
    ∀ b ∈ stores, compatible directives id a b := by
  intro b hb va vb hva hvb
  unfold mismatchWith at h
  rw [List.filterMap_eq_nil_iff] at h
  have := h b hb
  simp only [hva, hvb] at this
  by_contra hc
  simp [hc] at this

theorem mismatches_nil (directives : String → List String) (id : String) :
    ∀ stores : List Resources, mismatches directives id stores = [] →
      stores.Pairwise (compatible directives id) := by
  intro stores
  induction stores with
  | nil => intro _; exact List.Pairwise.nil
  | cons a rest ih =>
    intro h
    simp only [mismatches, List.append_eq_nil] at h
    exact List.Pairwise.cons (mismatchWith_nil directives id a rest h.1) (ih h.2)

theorem validate_none_all (directives : String → List String) (stores : List Resources)
    (h : (validate directives stores).2 = none) (id : String)
    (hex : ∃ res ∈ stores, (mapGet res.values id).isSome = true) :
    (∀ res ∈ stores, (mapGet res.values id).isSome = true)
    ∧ ∀ a ∈ stores, ∀ b ∈ stores, compatible directives id a b := by
  obtain ⟨res, hres, hsome⟩ := hex
  obtain ⟨hm, hd⟩ := validate_none directives stores h id (mem_allIDs stores res id hres hsome)
  refine ⟨missingIn_nil id stores hm, ?_⟩
  have hp := mismatches_nil directives id stores hd
  apply List.Pairwise.forall_of_forall
  · intro a b hab va vb hva hvb
    exact (hab vb va hvb hva).symm
  · intro a _ va vb hva hvb
    rw [hva] at hvb
    cases hvb
    rfl
  · exact hp

/-! ### The registry keeps one store per tag -/

theorem find_none_not_mem (l : localizations) (tag : LocaleTag) (h : l.find tag = none) :
    tag ∉ l.translations.map Resources.tag := by
  intro hmem
  obtain ⟨res, hres, htag⟩ := List.mem_map.mp hmem
  have := List.find?_eq_none.mp h res hres
  simp [htag] at this

theorem Configure_nodup (normalize : String → LocaleTag) (l : localizations)
    (locale : String) (h : (l.translations.map Resources.tag).Nodup) :
    ((Configure normalize l locale).2.translations.map Resources.tag).Nodup := by
  cases hf : l.find (normalize locale) with
  | none =>
    rw [Configure_of_not_find normalize l locale hf]
    simp only [List.map_append, List.map_cons, List.map_nil]
    rw [List.nodup_append]
    refine ⟨h, List.nodup_singleton _, ?_⟩
    intro t ht1 ht2
    rw [List.mem_singleton] at ht2
    subst ht2
    exact find_none_not_mem l _ hf ht1
  | some res =>
    rw [Configure_of_find normalize l locale res hf]
    exact h

theorem ImportValue_nodup (normalize : String → LocaleTag) (value : Value)
    (l : localizations) (h : (l.translations.map Resources.tag).Nodup) :
    ((ImportValue normalize value l).translations.map Resources.tag).Nodup := by
  rw [ImportValue_eq, setValue_tags]
  exact Configure_nodup normalize l _ h

theorem TranslationPriority_nodup (normalize : String → LocaleTag) (l : localizations)
    (locales : List String) (h : (l.translations.map Resources.tag).Nodup) :
    ((TranslationPriority normalize l locales).translations.map Resources.tag).Nodup := by
  unfold TranslationPriority SetTranslationPriority
  exact (List.filter_sublist _).map Resources.tag |>.nodup h

theorem Import_result {Src : Type} (normalize : String → LocaleTag)
    (importer : Resources → Src → Resources × Option Error)
    (locale : String) (src : Src) (l : localizations) :
    (Import normalize importer locale src l).2 =
      ((importer (Configure normalize l locale).1 src).2).map (Errorf "failed to parse: ") := by
  unfold Import
  cases h : (importer (Configure normalize l locale).1 src).2 with
  | none => simp [h]
  | some e => simp [h]

/-! ## The claims -/

/-- C3: after `ImportValue(v)` the store obtained by `Configure(v.Locale())`
maps `v.ID()` to `v`, the value as `updateTag` has rebound it (same ID, raw
locale and text; `v` itself when its tag was already the normalized one),
whether or not the ID was present before; and after `ImportValue(v1)` followed
by `ImportValue(v2)` with the same ID and locale the ID yields `v2`. -/
theorem ImportValue_upsert (normalize : String → LocaleTag) (value : Value)
    (l : localizations) :
    mapGet (Configure normalize (ImportValue normalize value l) value.Locale).1.values
        value.ID = some (value.updateTag (normalize value.Locale))
    ∧ (value.updateTag (normalize value.Locale)).ID = value.ID
    ∧ (value.updateTag (normalize value.Locale)).Locale = value.Locale
    ∧ (value.updateTag (normalize value.Locale)).text = value.text
    ∧ (value.tag = normalize value.Locale →
        value.updateTag (normalize value.Locale) = value)
    ∧ ∀ v2 : Value, v2.ID = value.ID → v2.Locale = value.Locale →
        mapGet (Configure normalize
            (ImportValue normalize v2 (ImportValue normalize value l)) value.Locale).1.values
          value.ID = some (v2.updateTag (normalize v2.Locale)) := by
  refine ⟨ImportValue_get normalize value l, rfl, rfl, rfl, ?_, ?_⟩
  · intro h
    cases value
    simp_all [Value.updateTag]
  · intro v2 hid hloc
    rw [← hid, ← hloc]
    exact ImportValue_get normalize v2 _

/-- Witness of C3: "greeting" imported twice for "en-US" with different
texts on a registry that already holds another entry. -/
theorem ImportValue_upsert_witness :
    mapGet (Configure sampleNormalize
        (ImportValue sampleNormalize ⟨"greeting", "en-US", und, "Hello"⟩
          (ImportValue sampleNormalize ⟨"greeting", "en-US", und, "Hi"⟩
            ⟨[⟨sampleNormalize "en-US", [("bye", ⟨"bye", "en-US", und, "Bye"⟩)]⟩], []⟩))
        "en-US").1.values "greeting" =
      some ⟨"greeting", "en-US", sampleNormalize "en-US", "Hello"⟩ :=
  (ImportValue_upsert sampleNormalize ⟨"greeting", "en-US", und, "Hi"⟩
    ⟨[⟨sampleNormalize "en-US", [("bye", ⟨"bye", "en-US", und, "Bye"⟩)]⟩], []⟩).2.2.2.2.2
    ⟨"greeting", "en-US", und, "Hello"⟩ rfl rfl

/-- C10: `ImportValue(v)` changes at most the entry under `v.ID()` in the store
for `v.Locale()`: the priority list is unchanged, the stores for every other
tag are unchanged (as a list and under lookup), and in the store for
`v.Locale()` every other ID maps to what it mapped to before; when that store
did not exist it is created (the one new tag) and holds nothing under any
other ID. -/
theorem ImportValue_frame (normalize : String → LocaleTag) (value : Value)
    (l : localizations) :
    (ImportValue normalize value l).priority = l.priority
    ∧ (ImportValue normalize value l).translations.filter
          (fun res => decide (res.tag ≠ normalize value.Locale)) =
        l.translations.filter (fun res => decide (res.tag ≠ normalize value.Locale))
    ∧ (∀ t, t ≠ normalize value.Locale → (ImportValue normalize value l).find t = l.find t)
    ∧ (∀ res, l.find (normalize value.Locale) = some res →
        (ImportValue normalize value l).translations.map Resources.tag =
          l.translations.map Resources.tag
        ∧ ∃ res1, (ImportValue normalize value l).find (normalize value.Locale) = some res1
          ∧ res1.tag = res.tag
          ∧ ∀ id, id ≠ value.ID → mapGet res1.values id = mapGet res.values id)
    ∧ (l.find (normalize value.Locale) = none →
        (ImportValue normalize value l).translations.map Resources.tag =
          l.translations.map Resources.tag ++ [normalize value.Locale]
        ∧ ∃ res1, (ImportValue normalize value l).find (normalize value.Locale) = some res1
          ∧ res1.tag = normalize value.Locale
          ∧ ∀ id, id ≠ value.ID → mapGet res1.values id = none) := by
  refine ⟨?_, ?_, ?_, ?_, ?_⟩
  · rw [ImportValue_eq, setValue_priority, Configure_priority]
  · rw [ImportValue_eq, setValue_filter, Configure_filter]
  · intro t ht
    rw [ImportValue_eq, setValue_find, Configure_find_other normalize l _ t ht]
    cases h : l.find t with
    | none => rfl
    | some r =>
      have := find_tag l t r h
      simp [this, ht]
  · intro res h
    refine ⟨?_, _, ImportValue_find normalize value l, ?_, ?_⟩
    · rw [ImportValue_eq, setValue_tags, Configure_of_find normalize l _ res h]
    · rw [Configure_of_find normalize l _ res h]
    · intro id hid
      rw [Configure_of_find normalize l _ res h]
      exact mapGet_mapSet_other _ _ _ _ hid
  · intro h
    refine ⟨?_, _, ImportValue_find normalize value l, ?_, ?_⟩
    · rw [ImportValue_eq, setValue_tags, Configure_of_not_find normalize l _ h]
      simp
    · rw [Configure_of_not_find normalize l _ h]
    · intro id hid
      rw [Configure_of_not_find normalize l _ h]
      simp only
      rw [mapGet_mapSet_other _ _ _ _ hid]
      rfl

/-- Witness of C10: importing "greeting" for "en-US" into a registry with an
"en-US" store holding "bye" and a "fr" store leaves "bye" and the "fr" store as
they were. -/
theorem ImportValue_frame_witness :
    ∃ res1, (ImportValue sampleNormalize ⟨"greeting", "en-US", und, "Hello"⟩
        ⟨[⟨sampleNormalize "en-US", [("bye", ⟨"bye", "en-US", und, "Bye"⟩)]⟩,
          ⟨sampleNormalize "fr", [("bye", ⟨"bye", "fr", und, "Salut"⟩)]⟩],
         [sampleNormalize "fr"]⟩).find (sampleNormalize "en-US") = some res1
      ∧ res1.tag = sampleNormalize "en-US"
      ∧ ∀ id, id ≠ "greeting" →
          mapGet res1.values id =
            mapGet [("bye", (⟨"bye", "en-US", und, "Bye"⟩ : Value))] id :=
  ((ImportValue_frame sampleNormalize ⟨"greeting", "en-US", und, "Hello"⟩
    ⟨[⟨sampleNormalize "en-US", [("bye", ⟨"bye", "en-US", und, "Bye"⟩)]⟩,
      ⟨sampleNormalize "fr", [("bye", ⟨"bye", "fr", und, "Salut"⟩)]⟩],
     [sampleNormalize "fr"]⟩).2.2.2.1
    ⟨sampleNormalize "en-US", [("bye", ⟨"bye", "en-US", und, "Bye"⟩)]⟩ (by decide)).2

/-- C6: `ImportValue(v)` rebinds the tag of `v` to the tag of the store it is
inserted into, the normalized form of `v.Locale()`: the entry stored under
`v.ID()` carries exactly the tag of its owning store.  As an invariant: when
every entry of every store carries its store's tag, this still holds after
`ImportValue`, and it holds in every registry built from the empty one by
`ImportValue` calls. -/
theorem ImportValue_rebinds (normalize : String → LocaleTag) (value : Value)
    (l : localizations) :
    (∃ res e, (ImportValue normalize value l).find (normalize value.Locale) = some res
        ∧ res.tag = normalize value.Locale
        ∧ mapGet res.values value.ID = some e
        ∧ e = value.updateTag res.tag
        ∧ e.tag = res.tag)
    ∧ (TagInv l → TagInv (ImportValue normalize value l))
    ∧ (∀ values : List Value,
        TagInv (values.foldl (fun l v => ImportValue normalize v l) newLocalizations)) := by
  refine ⟨⟨_, _, ImportValue_find normalize value l, ?_, mapGet_mapSet_same _ _ _, ?_, ?_⟩,
    TagInv_ImportValue normalize value l, ?_⟩
  · exact Configure_tag normalize l _
  · simp [Configure_tag]
  · simp [Configure_tag, Value.updateTag]
  · intro values
    apply TagInv_foldl
    intro res hres
    simp [newLocalizations] at hres

/-- Witness of C6: a registry whose "fr" store holds a correctly tagged entry
keeps the invariant when an entry built with the raw locale "en_US" and the
tag "und" is imported. -/
theorem ImportValue_rebinds_witness :
    TagInv (ImportValue sampleNormalize ⟨"greeting", "en_US", und, "Hello"⟩
      ⟨[⟨sampleNormalize "fr", [("bye", ⟨"bye", "fr", sampleNormalize "fr", "Salut"⟩)]⟩],
       []⟩) :=
  (ImportValue_rebinds sampleNormalize ⟨"greeting", "en_US", und, "Hello"⟩
    ⟨[⟨sampleNormalize "fr", [("bye", ⟨"bye", "fr", sampleNormalize "fr", "Salut"⟩)]⟩],
     []⟩).2.1
    (by
      intro res hres e he
      simp only [List.mem_singleton] at hres
      subst hres
      simp only [List.mem_singleton] at he
      subst he
      rfl)

/-- C9, as stated, fails: in the run of `ImportValue` for "greeting"/"en-US" on
the empty registry, step 1 is `updateTag` on the store's tag and the store's
mutex is not held when it runs (the `lock` is step 2). -/
theorem ImportValue_updateTag_not_under_lock :
    (ImportValueRun sampleNormalize ⟨"greeting", "en-US", und, "Hello"⟩
        newLocalizations).2[1]? = some (Event.updateTag (sampleNormalize "en-US"))
    ∧ heldAt (sampleNormalize "en-US")
        (ImportValueRun sampleNormalize ⟨"greeting", "en-US", und, "Hello"⟩
          newLocalizations).2 1 = false
    ∧ (ImportValueRun sampleNormalize ⟨"greeting", "en-US", und, "Hello"⟩
        newLocalizations).2[2]? = some (Event.lock (sampleNormalize "en-US")) := by
  decide

/-- C9, amended: every run of `ImportValue` performs, in this order,
`Configure`, `updateTag` with the tag of the target store, the `Lock` of that
store's mutex, the write of the entry and the `Unlock`; `updateTag` runs
before the mutex is locked, so not under the lock, and the write into
`res.values` is what runs while the lock is held. -/
theorem ImportValue_lock_order (normalize : String → LocaleTag) (value : Value)
    (l : localizations) :
    (ImportValueRun normalize value l).2 =
      [Event.configure value.Locale, Event.updateTag (normalize value.Locale),
       Event.lock (normalize value.Locale),
       Event.write (normalize value.Locale) value.ID,
       Event.unlock (normalize value.Locale)]
    ∧ heldAt (normalize value.Locale) (ImportValueRun normalize value l).2 1 = false
    ∧ heldAt (normalize value.Locale) (ImportValueRun normalize value l).2 3 = true
    ∧ heldAt (normalize value.Locale) (ImportValueRun normalize value l).2 5 = false := by
  have h : (ImportValueRun normalize value l).2 =
      [Event.configure value.Locale, Event.updateTag (normalize value.Locale),
       Event.lock (normalize value.Locale),
       Event.write (normalize value.Locale) value.ID,
       Event.unlock (normalize value.Locale)] := by
    simp [ImportValueRun, Configure_tag, Value.updateTag]
  rw [h]
  refine ⟨rfl, ?_, ?_, ?_⟩ <;> simp [heldAt, holds]

/-- C5, as stated, fails: the error `Import` returns carries no context about
the source.  The same importer error, for the source "/tmp/a.xml" imported as
"en-US" and for the source "/tmp/b.xml" imported as "fr", gives the very same
error, whose message adds only the words "failed to parse: ". -/
theorem Import_error_no_source_context :
    (Import sampleNormalize
        (fun res (_ : String) => (res, some (Error.plain "bad line 3")))
        "en-US" "/tmp/a.xml" newLocalizations).2 =
      some (Error.wrapped "failed to parse: bad line 3" (Error.plain "bad line 3"))
    ∧ (Import sampleNormalize
        (fun res (_ : String) => (res, some (Error.plain "bad line 3")))
        "fr" "/tmp/b.xml" newLocalizations).2 =
      some (Error.wrapped "failed to parse: bad line 3" (Error.plain "bad line 3")) := by
  decide

/-- C5, amended: `Import` returns a non-nil error if and only if
`importer.Import`, applied to the store `Configure(locale)` and the source,
returns one; the returned error then wraps the importer's error (unwrapping
yields it) and its message is the importer's message behind the fixed words
"failed to parse: "; it is determined by the importer's error alone, whatever
the source, the locale and the registry; otherwise `Import` returns nil. -/
theorem Import_error {Src : Type} (normalize : String → LocaleTag)
    (importer : Resources → Src → Resources × Option Error)
    (locale : String) (src : Src) (l : localizations) :
    ((Import normalize importer locale src l).2 ≠ none ↔
      (importer (Configure normalize l locale).1 src).2 ≠ none)
    ∧ (∀ e, (importer (Configure normalize l locale).1 src).2 = some e →
        ∃ w, (Import normalize importer locale src l).2 = some w
          ∧ w.Unwrap = some e
          ∧ w.message = "failed to parse: " ++ e.message)
    ∧ ((importer (Configure normalize l locale).1 src).2 = none →
        (Import normalize importer locale src l).2 = none)
    ∧ (∀ e, (importer (Configure normalize l locale).1 src).2 = some e →
        (Import normalize importer locale src l).2 =
          some (Error.wrapped ("failed to parse: " ++ e.message) e))
    ∧ (∀ (locale2 : String) (src2 : Src) (l2 : localizations),
        (importer (Configure normalize l2 locale2).1 src2).2 =
          (importer (Configure normalize l locale).1 src).2 →
        (Import normalize importer locale2 src2 l2).2 =
          (Import normalize importer locale src l).2) := by
  refine ⟨?_, ?_, ?_, ?_, ?_⟩
  · rw [Import_result]
    cases (importer (Configure normalize l locale).1 src).2 <;> simp
  · intro e he
    rw [Import_result, he]
    exact ⟨_, rfl, rfl, rfl⟩
  · intro he
    rw [Import_result, he]
    rfl
  · intro e he
    rw [Import_result, he]
    rfl
  · intro locale2 src2 l2 h
    rw [Import_result, Import_result, h]

/-- Witness of C5: an importer that rejects its source with "bad line 3". -/
theorem Import_error_witness :
    ∃ w, (Import sampleNormalize
        (fun res (_ : String) => (res, some (Error.plain "bad line 3")))
        "en-US" "source" newLocalizations).2 = some w
      ∧ w.Unwrap = some (Error.plain "bad line 3")
      ∧ w.message = "failed to parse: " ++ (Error.plain "bad line 3").message :=
  (Import_error sampleNormalize
    (fun res (_ : String) => (res, some (Error.plain "bad line 3")))
    "en-US" "source" newLocalizations).2.1 (Error.plain "bad line 3") rfl

/-- C1: when a client locale normalizes to a tag for which a store exists,
`From` returns the store of the first such client locale in list order: for a
client list `pre ++ c :: post` in which no locale of `pre` has a store and `c`
has the store `res`, the result is `res`, whose tag is exactly the normalized
`c`, whatever language-only matches, priority entries or "und" store exist. -/
theorem From_exact_first (normalize : String → LocaleTag) (l : localizations)
    (pre : List String) (c : String) (post : List String) (res : Resources)
    (hpre : ∀ x ∈ pre, l.find (normalize x) = none)
    (hc : l.find (normalize c) = some res) :
    From normalize l (pre ++ c :: post) = some res
    ∧ res.tag = normalize c
    ∧ res ∈ l.translations := by
  refine ⟨?_, find_tag l _ res hc, find_mem l _ res hc⟩
  have h : ((pre ++ c :: post).map normalize).findSome? (fun tag => l.find tag) = some res := by
    rw [List.map_append, List.map_cons]
    apply findSome?_first
    · intro t ht
      obtain ⟨x, hx, rfl⟩ := List.mem_map.mp ht
      exact hpre x hx
    · exact hc
  simp only [From, Match, h]

/-- Witness of C1: with stores for "en-US", "en-GB", "fr" and "und", priority
"fr", and the client list "de", "en-GB", "en-US": "de" has no store, and the
"en-GB" store is returned, not the language match "en-US" listed first in the
registry, the priority entry "fr" or "und". -/
theorem From_exact_first_witness :
    From sampleNormalize
        ⟨[⟨sampleNormalize "en-US", []⟩,
          ⟨sampleNormalize "en-GB", [("bye", ⟨"bye", "en-GB", und, "Cheerio"⟩)]⟩,
          ⟨sampleNormalize "fr", []⟩, ⟨und, []⟩], [sampleNormalize "fr"]⟩
        (["de"] ++ "en-GB" :: ["en-US"]) =
      some ⟨sampleNormalize "en-GB", [("bye", ⟨"bye", "en-GB", und, "Cheerio"⟩)]⟩
    ∧ (⟨sampleNormalize "en-GB", [("bye", ⟨"bye", "en-GB", und, "Cheerio"⟩)]⟩ :
        Resources).tag = sampleNormalize "en-GB"
    ∧ (⟨sampleNormalize "en-GB", [("bye", ⟨"bye", "en-GB", und, "Cheerio"⟩)]⟩ : Resources) ∈
        (⟨[⟨sampleNormalize "en-US", []⟩,
          ⟨sampleNormalize "en-GB", [("bye", ⟨"bye", "en-GB", und, "Cheerio"⟩)]⟩,
          ⟨sampleNormalize "fr", []⟩, ⟨und, []⟩], [sampleNormalize "fr"]⟩ :
          localizations).translations :=
  From_exact_first sampleNormalize
    ⟨[⟨sampleNormalize "en-US", []⟩,
      ⟨sampleNormalize "en-GB", [("bye", ⟨"bye", "en-GB", und, "Cheerio"⟩)]⟩,
      ⟨sampleNormalize "fr", []⟩, ⟨und, []⟩], [sampleNormalize "fr"]⟩
    ["de"] "en-GB" ["en-US"]
    ⟨sampleNormalize "en-GB", [("bye", ⟨"bye", "en-GB", und, "Cheerio"⟩)]⟩
    (by decide) (by decide)

/-- C4: after `TranslationPriority(locales)` the priority list is the
normalized `locales`; every store remaining in the registry has a tag that is
in the new priority list or is "und"; a store for "und" that existed before
still exists, whether or not "und" is in the list; and every store that
existed before and whose tag is in the list is still present. -/
theorem TranslationPriority_prunes (normalize : String → LocaleTag) (l : localizations)
    (locales : List String) :
    (TranslationPriority normalize l locales).priority = locales.map normalize
    ∧ (∀ res ∈ (TranslationPriority normalize l locales).translations,
        res.tag ∈ locales.map normalize ∨ res.tag = und)
    ∧ (∀ res ∈ (TranslationPriority normalize l locales).translations, res ∈ l.translations)
    ∧ (∀ res, l.find und = some res →
        (TranslationPriority normalize l locales).find und = some res)
    ∧ (∀ tag ∈ locales.map normalize, ∀ res, l.find tag = some res →
        (TranslationPriority normalize l locales).find tag = some res)
    ∧ (∀ res ∈ l.translations, (res.tag ∈ locales.map normalize ∨ res.tag = und) →
        res ∈ (TranslationPriority normalize l locales).translations) := by
  refine ⟨rfl, ?_, ?_, ?_, ?_, ?_⟩
  · intro res hres
    simp only [TranslationPriority, SetTranslationPriority, List.mem_filter,
      decide_eq_true_eq] at hres
    exact hres.2
  · intro res hres
    simp only [TranslationPriority, SetTranslationPriority, List.mem_filter] at hres
    exact hres.1
  · intro res h
    simp only [TranslationPriority, SetTranslationPriority, localizations.find] at h ⊢
    rw [find?_filter_keep _ und _ l.translations]
    · exact h
    · intro r hr
      simp [hr]
  · intro tag htag res h
    simp only [TranslationPriority, SetTranslationPriority, localizations.find] at h ⊢
    rw [find?_filter_keep _ tag _ l.translations]
    · exact h
    · intro r hr
      rw [hr]
      simp only [decide_eq_true_eq]
      exact Or.inl htag
  · intro res hres hkeep
    simp only [TranslationPriority, SetTranslationPriority, List.mem_filter,
      decide_eq_true_eq]
    exact ⟨hres, hkeep⟩

/-- Witness of C4: with stores "en", "fr" and "und", the priority "en" keeps
the "und" store although "und" is not in the list. -/
theorem TranslationPriority_prunes_witness :
    (TranslationPriority sampleNormalize
        ⟨[⟨sampleNormalize "en", []⟩, ⟨sampleNormalize "fr", []⟩,
          ⟨und, [("bye", ⟨"bye", "und", und, "Bye"⟩)]⟩], []⟩ ["en"]).find und =
      some ⟨und, [("bye", ⟨"bye", "und", und, "Bye"⟩)]⟩ :=
  (TranslationPriority_prunes sampleNormalize
    ⟨[⟨sampleNormalize "en", []⟩, ⟨sampleNormalize "fr", []⟩,
      ⟨und, [("bye", ⟨"bye", "und", und, "Bye"⟩)]⟩], []⟩ ["en"]).2.2.2.1
    ⟨und, [("bye", ⟨"bye", "und", und, "Bye"⟩)]⟩ (by decide)

/-- C7: the list that `Validate` hands to `validate` contains every store of
the registry exactly as often as the registry does (it is a permutation of the
registry's stores, each once when the tags are distinct) and nothing else, it is
built while the registry read lock is held, and `Validate` returns the result
of `validate` on that list unchanged. -/
theorem Validate_snapshot (range : List Resources → List Resources)
    (hrange : ∀ xs, (range xs).Perm xs) (l : localizations) :
    ∃ tmp : List Resources,
      (∀ validate, (Validate validate range l).2 = (validate tmp).2)
      ∧ tmp.Perm l.translations
      ∧ (∀ res, res ∈ tmp ↔ res ∈ l.translations)
      ∧ (∀ res, tmp.count res = l.translations.count res)
      ∧ tmp.length = l.translations.length
      ∧ ((l.translations.map Resources.tag).Nodup → (tmp.map Resources.tag).Nodup)
      ∧ (∀ validate, (ValidateRun validate range l).2 =
          [Event.rlock, Event.snapshot tmp.length, Event.validate, Event.runlock]
          ∧ rholds ((ValidateRun validate range l).2.take 1) = true
          ∧ rholds ((ValidateRun validate range l).2.take 3) = true
          ∧ rholds (ValidateRun validate range l).2 = false) := by
  refine ⟨range l.translations, ?_, hrange _, ?_, ?_, ?_, ?_, ?_⟩
  · intro validate
    exact Validate_result validate range l
  · intro res
    exact (hrange _).mem_iff
  · intro res
    exact (hrange _).count_eq res
  · exact (hrange _).length_eq
  · intro h
    exact (((hrange l.translations).map Resources.tag).nodup_iff).mpr h
  · intro validate
    have h : (ValidateRun validate range l).2 =
        [Event.rlock, Event.snapshot (range l.translations).length, Event.validate,
         Event.runlock] := by
      simp [ValidateRun, foldl_append_singleton]
    rw [h]
    refine ⟨rfl, ?_, ?_, ?_⟩ <;> simp [rholds]

/-- Witness of C7: a registry of three stores visited in reverse order. -/
theorem Validate_snapshot_witness :
    ∃ tmp : List Resources,
      (∀ validate, (Validate validate List.reverse
          ⟨[⟨sampleNormalize "en", []⟩, ⟨sampleNormalize "fr", []⟩, ⟨und, []⟩], []⟩).2 =
        (validate tmp).2)
      ∧ tmp.Perm [⟨sampleNormalize "en", []⟩, ⟨sampleNormalize "fr", []⟩, ⟨und, []⟩] :=
  let ⟨tmp, h1, h2, _⟩ := Validate_snapshot List.reverse (fun xs => List.reverse_perm xs)
    ⟨[⟨sampleNormalize "en", []⟩, ⟨sampleNormalize "fr", []⟩, ⟨und, []⟩], []⟩
  ⟨tmp, h1, h2⟩

/-- C8: `Validate` leaves the registry and every store unchanged, whether it
returns an error or not: with the validator of the specification, which only
reads the stores it is handed, the registry after the call is the registry
before it, with the same stores, the same ID-to-entry mapping in every store
and the same priority list; the same holds for every collaborator that leaves
the stores it is handed as they were.  The registry holds one store per tag, as
a Go map does. -/
theorem Validate_readonly (directives : String → List String)
    (range : List Resources → List Resources) (hrange : ∀ xs, (range xs).Perm xs)
    (l : localizations) (hnodup : (l.translations.map Resources.tag).Nodup) :
    (Validate (validate directives) range l).1 = l
    ∧ (Validate (validate directives) range l).1.translations = l.translations
    ∧ (Validate (validate directives) range l).1.priority = l.priority
    ∧ (∀ tag, (Validate (validate directives) range l).1.find tag = l.find tag)
    ∧ (∀ tag res, l.find tag = some res → ∀ id,
        ((Validate (validate directives) range l).1.find tag).bind
          (fun res1 => mapGet res1.values id) = mapGet res.values id)
    ∧ (∀ collaborator : List Resources → List Resources × Option Error,
        (collaborator (range l.translations)).1 = range l.translations →
        (Validate collaborator range l).1 = l) := by
  have h : (Validate (validate directives) range l).1 = l :=
    Validate_of_readonly (validate directives) range hrange l hnodup rfl
  refine ⟨h, ?_, ?_, ?_, ?_, ?_⟩
  · rw [h]
  · rw [h]
  · intro tag
    rw [h]
  · intro tag res hres id
    rw [h, hres]
    rfl
  · intro collaborator hro
    exact Validate_of_readonly collaborator range hrange l hnodup hro

/-- Witness of C8: a registry whose "fr" store lacks the ID "b" is reported and
left as it was. -/
theorem Validate_readonly_witness :
    (Validate (validate sampleDirectives) List.reverse
        ⟨[⟨sampleNormalize "en", [("a", ⟨"a", "en", sampleNormalize "en", "A"⟩),
                                  ("b", ⟨"b", "en", sampleNormalize "en", "B"⟩)]⟩,
          ⟨sampleNormalize "fr", [("a", ⟨"a", "fr", sampleNormalize "fr", "A"⟩)]⟩],
         [sampleNormalize "en"]⟩).1 =
      ⟨[⟨sampleNormalize "en", [("a", ⟨"a", "en", sampleNormalize "en", "A"⟩),
                                ("b", ⟨"b", "en", sampleNormalize "en", "B"⟩)]⟩,
        ⟨sampleNormalize "fr", [("a", ⟨"a", "fr", sampleNormalize "fr", "A"⟩)]⟩],
       [sampleNormalize "en"]⟩ :=
  (Validate_readonly sampleDirectives List.reverse (fun xs => List.reverse_perm xs)
    ⟨[⟨sampleNormalize "en", [("a", ⟨"a", "en", sampleNormalize "en", "A"⟩),
                              ("b", ⟨"b", "en", sampleNormalize "en", "B"⟩)]⟩,
      ⟨sampleNormalize "fr", [("a", ⟨"a", "fr", sampleNormalize "fr", "A"⟩)]⟩],
     [sampleNormalize "en"]⟩ (by decide)).1

/-- C2: if `Validate` returns no error, every entry ID present in at least one
store of the registry is present in every store of the registry, and the texts
of any two stores for that ID have the same directives. -/
theorem Validate_sound (directives : String → List String)
    (range : List Resources → List Resources) (hrange : ∀ xs, (range xs).Perm xs)
    (l : localizations)
    (h : (Validate (validate directives) range l).2 = none) (id : String)
    (hex : ∃ res ∈ l.translations, (mapGet res.values id).isSome = true) :
    (∀ res ∈ l.translations, (mapGet res.values id).isSome = true)
    ∧ ∀ a ∈ l.translations, ∀ b ∈ l.translations, ∀ va vb,
        mapGet a.values id = some va → mapGet b.values id = some vb →
        directives va.text = directives vb.text := by
  rw [Validate_result] at h
  have hmem : ∀ res, res ∈ range l.translations ↔ res ∈ l.translations :=
    fun res => (hrange _).mem_iff
  obtain ⟨res, hres, hsome⟩ := hex
  obtain ⟨h1, h2⟩ := validate_none_all directives _ h id ⟨res, (hmem res).mpr hres, hsome⟩
  refine ⟨fun r hr => h1 r ((hmem r).mpr hr), ?_⟩
  intro a ha b hb va vb hva hvb
  exact h2 a ((hmem a).mpr ha) b ((hmem b).mpr hb) va vb hva hvb

/-- Witness of C2: stores "en" and "fr" that both hold "count" with one `%d`
pass validation. -/
theorem Validate_sound_witness :
    (∀ res ∈ [(⟨sampleNormalize "en",
          [("count", ⟨"count", "en", sampleNormalize "en", "You have %d items"⟩)]⟩ : Resources),
        ⟨sampleNormalize "fr",
          [("count", ⟨"count", "fr", sampleNormalize "fr", "Vous avez %d articles"⟩)]⟩],
        (mapGet res.values "count").isSome = true)
    ∧ ∀ a ∈ [(⟨sampleNormalize "en",
          [("count", ⟨"count", "en", sampleNormalize "en", "You have %d items"⟩)]⟩ : Resources),
        ⟨sampleNormalize "fr",
          [("count", ⟨"count", "fr", sampleNormalize "fr", "Vous avez %d articles"⟩)]⟩],
      ∀ b ∈ [(⟨sampleNormalize "en",
          [("count", ⟨"count", "en", sampleNormalize "en", "You have %d items"⟩)]⟩ : Resources),
        ⟨sampleNormalize "fr",
          [("count", ⟨"count", "fr", sampleNormalize "fr", "Vous avez %d articles"⟩)]⟩],
      ∀ va vb, mapGet a.values "count" = some va → mapGet b.values "count" = some vb →
        sampleDirectives va.text = sampleDirectives vb.text :=
  Validate_sound sampleDirectives List.reverse (fun xs => List.reverse_perm xs)
    ⟨[⟨sampleNormalize "en",
        [("count", ⟨"count", "en", sampleNormalize "en", "You have %d items"⟩)]⟩,
      ⟨sampleNormalize "fr",
        [("count", ⟨"count", "fr", sampleNormalize "fr", "Vous avez %d articles"⟩)]⟩], []⟩
    (by decide) "count"
    ⟨⟨sampleNormalize "en",
        [("count", ⟨"count", "en", sampleNormalize "en", "You have %d items"⟩)]⟩,
      List.mem_cons_self _ _, by decide⟩

/-! ## The examples of the specification, evaluated -/

/-- Validator completeness: store "en" has IDs a and b, store "fr" has a; one
missing-ID defect is reported, naming "fr" and b. -/
theorem validate_missing_example :
    (validate sampleDirectives
        [⟨sampleNormalize "en", [("a", ⟨"a", "en", sampleNormalize "en", "A"⟩),
                                 ("b", ⟨"b", "en", sampleNormalize "en", "B"⟩)]⟩,
         ⟨sampleNormalize "fr", [("a", ⟨"a", "fr", sampleNormalize "fr", "A"⟩)]⟩]).2 =
      some (Error.defects [Defect.missing (sampleNormalize "fr") "b"]) := by
  decide

/-- Validator directive mismatch: `%d` in "en" against `%s` in "fr" for the ID
"count" is reported as a mismatch between "en" and "fr". -/
theorem validate_mismatch_example :
    (validate sampleDirectives
        [⟨sampleNormalize "en",
            [("count", ⟨"count", "en", sampleNormalize "en", "You have %d items"⟩)]⟩,
         ⟨sampleNormalize "fr",
            [("count", ⟨"count", "fr", sampleNormalize "fr", "Vous avez %s articles"⟩)]⟩]).2 =
      some (Error.defects [Defect.mismatch "count" (sampleNormalize "en")
        (sampleNormalize "fr") ["%d"] ["%s"]]) := by
  decide

/-- Matcher exactness: with stores "en-US", "en-GB" and "und", the client
"en-US" gets the "en-US" store, the client "en-CA" a store of the language
"en", and the client "fr" with priority "en", "und" the "und" store. -/
theorem Match_example :
    (From sampleNormalize
        ⟨[⟨sampleNormalize "en-US", []⟩, ⟨sampleNormalize "en-GB", []⟩, ⟨und, []⟩],
         [sampleNormalize "en", und]⟩ ["en-US"] = some ⟨sampleNormalize "en-US", []⟩)
    ∧ (From sampleNormalize
        ⟨[⟨sampleNormalize "en-US", []⟩, ⟨sampleNormalize "en-GB", []⟩, ⟨und, []⟩],
         [sampleNormalize "en", und]⟩ ["en-CA"] = some ⟨sampleNormalize "en-US", []⟩)
    ∧ (From sampleNormalize
        ⟨[⟨sampleNormalize "en-US", []⟩, ⟨sampleNormalize "en-GB", []⟩, ⟨und, []⟩],
         [sampleNormalize "en", und]⟩ ["fr"] = some ⟨und, []⟩) := by
  decide

/-- A collaborator that writes through the pointers it is handed is seen in the
registry after `Validate`: one that empties every store leaves the "en" store
empty. -/
theorem Validate_mutating_example :
    (Validate (fun stores => (stores.map (fun res => ⟨res.tag, []⟩), none)) List.reverse
        ⟨[⟨sampleNormalize "en", [("a", ⟨"a", "en", sampleNormalize "en", "A"⟩)]⟩,
          ⟨sampleNormalize "fr", []⟩], []⟩).1 =
      ⟨[⟨sampleNormalize "en", []⟩, ⟨sampleNormalize "fr", []⟩], []⟩ := by
  decide

end i18n
